import Mathlib

/-! triton-client: schema-driven payload synthesis and dispatch.

A shallow embedding of `client.go`.  Go slices keep the distinction between the
nil slice and an allocated one, because `encoding/json` renders them differently.
Go's `int` is the 64-bit two's-complement integer: every multiplication is wrapped.
A panic is an error result carrying the panic value.  `make` carries the length
check of the Go runtime (`makeslice`) on a 64-bit target; within that limit the
allocation is taken to succeed.
-/

namespace TritonClient

/-! ## Go values -/

/-- A Go slice value: the nil slice, or an allocated slice with its elements. -/
inductive Slice (α : Type) where
  | nil : Slice α
  | mk (elems : List α) : Slice α
  deriving DecidableEq, Repr

namespace Slice

/-- The elements a `range` loop visits. -/
def toList {α : Type} : Slice α → List α
  | nil => []
  | mk xs => xs

/-- Go's `append(s, x)`: the result is always allocated. -/
def append {α : Type} (s : Slice α) (x : α) : Slice α :=
  mk (s.toList ++ [x])

/-- Go's `append(s, t...)`: appending no element gives `s` back. -/
def appendAll {α : Type} (s t : Slice α) : Slice α :=
  match t.toList with
  | [] => s
  | y :: ys => mk (s.toList ++ y :: ys)

end Slice

/-- The value a Go panic carries. -/
inductive Panic where
  /-- The value of `panic(fmt.Sprintf(...))`: a string. -/
  | str (msg : String) : Panic
  /-- The value of `panic(err)`: an `error`, kept by its text. -/
  | error (err : String) : Panic
  /-- A run-time panic raised by the Go runtime itself. -/
  | runtime (msg : String) : Panic
  deriving DecidableEq, Repr

/-- Equality of results is decidable when equality of both alternatives is. -/
instance instDecidableEqExcept {ε α : Type} [DecidableEq ε] [DecidableEq α] :
    DecidableEq (Except ε α)
  | Except.error a, Except.error b =>
    if h : a = b then isTrue (by rw [h]) else isFalse (fun h2 => h (Except.error.inj h2))
  | Except.ok a, Except.ok b =>
    if h : a = b then isTrue (by rw [h]) else isFalse (fun h2 => h (Except.ok.inj h2))
  | Except.error _, Except.ok _ => isFalse (fun h => Except.noConfusion h)
  | Except.ok _, Except.error _ => isFalse (fun h => Except.noConfusion h)

/-- Wrap an integer to Go's 64-bit `int`. -/
def wrap (x : Int) : Int :=
  (x + 2 ^ 63) % 2 ^ 64 - 2 ^ 63

/-! ## Types of `client.go` -/

/-- The anonymous element type of `Config.Input`. -/
structure InputSpec where
  Name : String
  Datatype : String
  Dims : Slice Int
  Optional : Bool
  deriving DecidableEq, Repr

/-- The `Config` type.  `Input` is only ever ranged over, so it is kept as the
list of its elements. -/
structure Config where
  MaxBatchSize : Int
  Input : List InputSpec
  deriving DecidableEq, Repr

/-- The `Input` type; `Data` is the `json.RawMessage`, held as its text. -/
structure Input where
  Name : String
  Datatype : String
  Shape : Slice Int
  Data : String
  deriving DecidableEq, Repr

/-- The `Infer` type. -/
structure Infer where
  Inputs : Slice Input
  deriving DecidableEq, Repr

/-! ## Library functions used by `client.go` -/

/-- Go's `strings.TrimPrefix`: one leading occurrence of `pre` is removed when present. -/
def TrimPrefix (s pre : String) : String :=
  if pre.data.isPrefixOf s.data then ⟨s.data.drop pre.data.length⟩ else s

/-- The text `encoding/json` produces for a list of already encoded elements. -/
def jsonArray (elems : List String) : String :=
  "[" ++ ",".intercalate elems ++ "]"

/-- The result of `json.Marshal(make([]float32, n))`: every element of a fresh
slice is the zero value, which is encoded as `0`. -/
def marshalFloat32Zeros (n : Nat) : String :=
  jsonArray (List.replicate n "0")

/-- The result of `json.Marshal` on a `[]int`: `null` for the nil slice. -/
def marshalInts : Slice Int → String
  | Slice.nil => "null"
  | Slice.mk xs => jsonArray (xs.map toString)

/-- A hexadecimal digit, lower case, as `encoding/json` writes it. -/
def hexDigit (n : Nat) : Char :=
  if n < 10 then Char.ofNat (48 + n) else Char.ofNat (87 + n)

/-- How `encoding/json` writes one character of a string, with the HTML escaping
that `json.Marshal` turns on (backspace and form feed in the short form of
Go 1.22 and later). -/
def escapeChar (ch : Char) : List Char :=
  if ch = '"' then ['\\', '"']
  else if ch = '\\' then ['\\', '\\']
  else if ch = '\n' then ['\\', 'n']
  else if ch = '\r' then ['\\', 'r']
  else if ch = '\t' then ['\\', 't']
  else if ch.toNat = 8 then ['\\', 'b']
  else if ch.toNat = 12 then ['\\', 'f']
  else if ch.toNat < 32 ∨ ch = '<' ∨ ch = '>' ∨ ch = '&' then
    ['\\', 'u', '0', '0', hexDigit (ch.toNat / 16), hexDigit (ch.toNat % 16)]
  else if ch.toNat = 8232 then ['\\', 'u', '2', '0', '2', '8']
  else if ch.toNat = 8233 then ['\\', 'u', '2', '0', '2', '9']
  else [ch]

/-- The result of `json.Marshal` on a string. -/
def marshalString (s : String) : String :=
  ⟨'"' :: (s.data.flatMap escapeChar ++ ['"'])⟩

/-- The result of `json.Marshal` on an `Input`: the fields in declaration order
under their tags; the raw message is spliced in as it is. -/
def marshalInput (i : Input) : String :=
  "\x7b\"name\":" ++ marshalString i.Name ++ ",\"datatype\":" ++ marshalString i.Datatype
    ++ ",\"shape\":" ++ marshalInts i.Shape ++ ",\"data\":" ++ i.Data ++ "\x7d"

/-- The result of `json.Marshal` on a `[]Input`: `null` for the nil slice. -/
def marshalInputs : Slice Input → String
  | Slice.nil => "null"
  | Slice.mk xs => jsonArray (xs.map marshalInput)

/-- The result of `json.Marshal(Infer{inputs})`. -/
def marshalInfer (r : Infer) : String :=
  "\x7b\"inputs\":" ++ marshalInputs r.Inputs ++ "\x7d"

/-! ## `NewInput` -/

/-- The loop `for _, dim := range dims { length *= dim }` started from `length`. -/
def lengthLoop (length : Int) : List Int → Int
  | [] => length
  | dim :: dims => lengthLoop (wrap (length * dim)) dims

/-- The runtime's `maxAlloc`, the most bytes one allocation may ask for: `1 << 48`
on linux/amd64 and the other targets with 48 address bits. -/
def maxAlloc : Int :=
  2 ^ 48

/-- The function `NewInput`.  `make([]float32, length)` panics in the runtime's
`makeslice` when the length is negative or when its 4 bytes an element overflow
or exceed `maxAlloc`; as `maxAlloc` is below `2 ^ 64`, the one comparison of the
exact product covers both. -/
def NewInput (name datatype : String) (dims : Slice Int) : Except Panic Input :=
  let datatype := TrimPrefix datatype "TYPE_"
  let length := lengthLoop 1 dims.toList
  if datatype = "FP32" then
    if length < 0 ∨ maxAlloc < 4 * length then
      Except.error (Panic.runtime "makeslice: len out of range")
    else
      Except.ok
        { Name := name, Datatype := datatype, Shape := dims,
          Data := marshalFloat32Zeros length.toNat }
  else
    Except.error (Panic.str ("NewInput: datatype " ++ datatype ++ " not supported"))

/-! ## The input loop of `infer` -/

/-- The shape `infer` passes to `NewInput` for declared dimensions `dims`. -/
def effectiveShape (c : Config) (dims : Slice Int) : Slice Int :=
  if c.MaxBatchSize ≥ 1 then (Slice.mk [1]).appendAll dims else dims

/-- The loop `for _, input := range c.Input` of `infer`, from the point where
`rest` is still to be visited and `inputs` has been built. -/
def inputLoop (c : Config) : List InputSpec → Slice Input → Except Panic (Slice Input)
  | [], inputs => Except.ok inputs
  | input :: rest, inputs =>
    if !input.Optional then
      match NewInput input.Name input.Datatype (effectiveShape c input.Dims) with
      | Except.error p => Except.error p
      | Except.ok i => inputLoop c rest (inputs.append i)
    else
      inputLoop c rest inputs

/-- Payload synthesis: the input loop run from `var inputs []Input`. -/
def synthesize (c : Config) : Except Panic (Slice Input) :=
  inputLoop c c.Input Slice.nil

/-- The request body `infer` builds: `json.Marshal(Infer{inputs})`, which cannot
fail on these types. -/
def requestBody (c : Config) : Except Panic String :=
  match synthesize c with
  | Except.error p => Except.error p
  | Except.ok inputs => Except.ok (marshalInfer { Inputs := inputs })

/-- The relation between a non-optional input spec and the tensor `infer` builds
from it: the result of its call of `NewInput`. -/
def builtFrom (c : Config) (spec : InputSpec) (tensor : Input) : Prop :=
  NewInput spec.Name spec.Datatype (effectiveShape c spec.Dims) = Except.ok tensor

/-- A spec the input loop gets past: it is optional, or of the supported datatype
with an element count `make` accepts. -/
def passes (spec : InputSpec) : Prop :=
  spec.Optional = true
    ∨ (TrimPrefix spec.Datatype "TYPE_" = "FP32" ∧ 4 * spec.Dims.toList.prod ≤ maxAlloc)

/-- A spec at which the input loop panics with `p`: it is not optional, and either
of an unsupported datatype, `p` being the message naming it, or of the supported
one with an element count `make` refuses, `p` being the runtime's error. -/
def stopsWith (spec : InputSpec) (p : Panic) : Prop :=
  spec.Optional = false
    ∧ ((TrimPrefix spec.Datatype "TYPE_" ≠ "FP32"
          ∧ p = Panic.str
              ("NewInput: datatype " ++ TrimPrefix spec.Datatype "TYPE_" ++ " not supported"))
      ∨ (TrimPrefix spec.Datatype "TYPE_" = "FP32"
          ∧ maxAlloc < 4 * spec.Dims.toList.prod
          ∧ p = Panic.runtime "makeslice: len out of range"))

/-- The schema of the end-to-end scenario. -/
def scenario : Config :=
  { MaxBatchSize := 1,
    Input := [{ Name := "INPUT0", Datatype := "TYPE_FP32", Dims := Slice.mk [3], Optional := false }] }

/-- The tensors payload synthesis builds for `scenario`. -/
def scenarioTensors : Slice Input :=
  Slice.mk [{ Name := "INPUT0", Datatype := "FP32", Shape := Slice.mk [1, 3], Data := "[0,0,0]" }]

/-- The body `infer` posts for `scenario`. -/
def scenarioBody : String :=
  "\x7b\"inputs\":[\x7b\"name\":\"INPUT0\",\"datatype\":\"FP32\",\"shape\":[1,3],\"data\":[0,0,0]\x7d]\x7d"

/-- A schema without batching: an optional input of an unsupported datatype, then
two inputs to be sent, the second with nil dims. -/
def mixedSchema : Config :=
  { MaxBatchSize := 0,
    Input :=
      [{ Name := "MASK", Datatype := "TYPE_BOOL", Dims := Slice.mk [4], Optional := true },
       { Name := "A", Datatype := "TYPE_FP32", Dims := Slice.mk [2, 2], Optional := false },
       { Name := "B", Datatype := "FP32", Dims := Slice.nil, Optional := false }] }

/-- The tensors payload synthesis builds for `mixedSchema`. -/
def mixedTensors : Slice Input :=
  Slice.mk
    [{ Name := "A", Datatype := "FP32", Shape := Slice.mk [2, 2], Data := "[0,0,0,0]" },
     { Name := "B", Datatype := "FP32", Shape := Slice.nil, Data := "[0]" }]

/-- A schema whose second non-optional input has an unsupported datatype; the
optional one before it and the one after it have unsupported datatypes too. -/
def int8Schema : Config :=
  { MaxBatchSize := 1,
    Input :=
      [{ Name := "MASK", Datatype := "TYPE_BOOL", Dims := Slice.mk [4], Optional := true },
       { Name := "A", Datatype := "TYPE_FP32", Dims := Slice.mk [3], Optional := false },
       { Name := "B", Datatype := "TYPE_INT8", Dims := Slice.mk [2], Optional := false },
       { Name := "C", Datatype := "TYPE_INT64", Dims := Slice.mk [2], Optional := false }] }

/-- A schema whose one input is of the supported datatype and asks for `2 ^ 62`
elements. -/
def hugeSchema : Config :=
  { MaxBatchSize := 0,
    Input :=
      [{ Name := "X", Datatype := "TYPE_FP32", Dims := Slice.mk [4611686018427387904],
         Optional := false }] }

/-- A schema all of whose inputs are optional. -/
def optionalSchema : Config :=
  { MaxBatchSize := 1,
    Input := [{ Name := "MASK", Datatype := "TYPE_BOOL", Dims := Slice.mk [4], Optional := true }] }

/-! ## `infer` -/

/-- An instant (`time.Time`), kept as a count of nanoseconds. -/
abbrev Time := Int

/-- What `http.Post` and the following `io.ReadAll` can give back to `infer`. -/
inductive PostOutcome where
  /-- The call `http.Post` returned `err != nil`. -/
  | transportError (err : String) : PostOutcome
  /-- The call `http.Post` returned a response with `resp.Status`, `resp.StatusCode`;
  `read` is the result of `io.ReadAll(resp.Body)`. -/
  | response (status : String) (statusCode : Int) (read : Except String String) : PostOutcome
  deriving DecidableEq, Repr

/-- What one call of `infer` does: the requests it posts (URL, content type, body),
the lines it logs, the instants it sends on `after`, and the value it panics with
(`none` when it returns normally). -/
structure Run where
  posted : List (String × String × String)
  logged : List String
  sent : List Time
  panicked : Option Panic
  deriving DecidableEq, Repr

/-- The URL `fmt.Sprintf("http://%s/v2/models/%s/infer", *authority, model)`. -/
def inferURL (authority model : String) : String :=
  "http://" ++ authority ++ "/v2/models/" ++ model ++ "/infer"

/-- The function `infer`.  The globals `authority` and `model` and the network
(`post`, answering a request with its outcome) are arguments; sending on `after`
is recorded in `sent`. -/
def infer (authority model : String) (post : String → String → String → PostOutcome)
    (c : Config) (t : Time) : Run :=
  match requestBody c with
  | Except.error p => { posted := [], logged := [], sent := [], panicked := some p }
  | Except.ok body =>
    let url := inferURL authority model
    match post url "application/json" body with
    | PostOutcome.transportError _ =>
      { posted := [(url, "application/json", body)], logged := ["Post"], sent := [],
        panicked := none }
    | PostOutcome.response status statusCode read =>
      match read with
      | Except.error err =>
        { posted := [(url, "application/json", body)], logged := [], sent := [],
          panicked := some (Panic.error err) }
      | Except.ok respBody =>
        if statusCode ≠ 200 then
          { posted := [(url, "application/json", body)], logged := [], sent := [],
            panicked := some (Panic.str (status ++ "\n" ++ respBody ++ "\n")) }
        else
          { posted := [(url, "application/json", body)], logged := [], sent := [t],
            panicked := none }

/-- The text a panic value prints. -/
def Panic.text : Panic → String
  | Panic.str msg => msg
  | Panic.error err => err
  | Panic.runtime msg => "runtime error: " ++ msg

/-- A network that answers every request with status 200 and the body `ok`. -/
def postOK : String → String → String → PostOutcome :=
  fun _ _ _ => PostOutcome.response "200 OK" 200 (Except.ok "ok")

/-- A network on which every request fails with a transport error. -/
def postDown : String → String → String → PostOutcome :=
  fun _ _ _ => PostOutcome.transportError "connection refused"

/-- A network that answers every request with status 500 and the body `busy`. -/
def postBusy : String → String → String → PostOutcome :=
  fun _ _ _ => PostOutcome.response "500 Internal Server Error" 500 (Except.ok "busy")

/-- A network that answers every request with status 500 and breaks off while the
body is read. -/
def postBroken : String → String → String → PostOutcome :=
  fun _ _ _ =>
    PostOutcome.response "500 Internal Server Error" 500 (Except.error "unexpected EOF")

/-! ## `load` and the start of `main` -/

/-- A `float64` value: not-a-number, an infinity, or the finite value `± m · 2 ^ e`
(a zero has `m = 0` and keeps its sign). -/
inductive Float64 where
  | nan : Float64
  | inf (neg : Bool) : Float64
  | fin (neg : Bool) (m : Nat) (e : Int) : Float64
  deriving DecidableEq, Repr

/-- Counting loop of `bitLength`. -/
def bitLoop : Nat → Nat → Nat
  | 0, _ => 0
  | fuel + 1, n => if n = 0 then 0 else bitLoop fuel (n / 2) + 1

/-- Number of binary digits of `n`. -/
def bitLength (n : Nat) : Nat :=
  bitLoop n n

/-- The quotient `n / d` rounded to the nearest integer, ties to even. -/
def roundDiv (n d : Nat) : Nat :=
  if 2 * (n % d) < d then n / d
  else if 2 * (n % d) = d then (if n / d % 2 = 0 then n / d else n / d + 1)
  else n / d + 1

/-- Numerator and denominator of `(n / d) · 2 ^ (k - x)`. -/
def scaled (n d : Nat) (k x : Int) : Nat × Nat :=
  if x ≤ k then (n * 2 ^ (k - x).toNat, d) else (n, d * 2 ^ (x - k).toNat)

/-- The binary64 value nearest to `± (n / d) · 2 ^ k`, for positive `n` and `d`
(IEEE 754 round to nearest, ties to even; 53-bit significand, least exponent
`-1074`, overflow to infinity). -/
def roundBinary64 (neg : Bool) (n d : Nat) (k : Int) : Float64 :=
  let x1 : Int := (bitLength n : Int) - (bitLength d : Int) + k - 52
  let x2 : Int := if (scaled n d k x1).1 / (scaled n d k x1).2 < 2 ^ 52 then x1 - 1 else x1
  let x : Int := max x2 (-1074)
  let m : Nat := roundDiv (scaled n d k x).1 (scaled n d k x).2
  if m = 2 ^ 53 then
    (if x + 1 > 971 then Float64.inf neg else Float64.fin neg (2 ^ 52) (x + 1))
  else
    (if x > 971 then Float64.inf neg else Float64.fin neg m x)

/-- The expression `float64(time.Second) / rate`; `time.Second` is `1000000000`. -/
def secondsOver : Float64 → Float64
  | Float64.nan => Float64.nan
  | Float64.inf neg => Float64.fin neg 0 0
  | Float64.fin neg 0 _ => Float64.inf neg
  | Float64.fin neg (m + 1) e => roundBinary64 neg 1000000000 (m + 1) (-e)

/-- The conversion `time.Duration(f)`: truncation toward zero.  For a value that
`int64` cannot hold Go leaves the result to the implementation; this is what
amd64 gives. -/
def toDuration : Float64 → Int
  | Float64.nan => -(2 ^ 63)
  | Float64.inf _ => -(2 ^ 63)
  | Float64.fin neg m e =>
    let mag : Nat := if 0 ≤ e then m * 2 ^ e.toNat else m / 2 ^ (-e).toNat
    let v : Int := if neg then -(mag : Int) else (mag : Int)
    if -(2 ^ 63) ≤ v ∧ v < 2 ^ 63 then v else -(2 ^ 63)

/-- The sign bit of a `float64`: set for the negative values, the negative zero
included. -/
def Float64.signBit : Float64 → Bool
  | Float64.nan => false
  | Float64.inf neg => neg
  | Float64.fin neg _ _ => neg

/-- Go's `time.Tick(d)`: the nil channel (`none`) when `d ≤ 0`, otherwise a ticker
of period `d`. -/
def Tick (d : Int) : Option Int :=
  if d ≤ 0 then none else some d

/-- What the goroutine of `load` sets up: the interval `d` it computes and the
channel it ranges over. -/
structure Driver where
  schema : Config
  interval : Int
  ticker : Option Int
  deriving DecidableEq, Repr

/-- The function `load`, with the global `rate` as an argument. -/
def load (rate : Float64) (c : Config) : Driver :=
  let d := toDuration (secondsOver rate)
  { schema := c, interval := d, ticker := Tick d }

/-- The instants of the first `n` calls `go infer(c, t, after)` of a driver started
at `start`: ranging over the nil channel never yields a tick. -/
def Driver.dispatched (drv : Driver) (start : Time) (n : Nat) : List Time :=
  match drv.ticker with
  | none => []
  | some d => (List.range n).map (fun i => start + ((i : Int) + 1) * d)

/-- The start of `main`: `parsed` is the result of `strconv.ParseFloat` on the rate
argument and `fetched` the result of `config.Init()`; an error of either is a
panic, otherwise `load` is called. -/
def main (parsed : Except String Float64) (fetched : Except Panic Config) :
    Except Panic Driver :=
  match parsed with
  | Except.error err => Except.error (Panic.error err)
  | Except.ok rate =>
    match fetched with
    | Except.error p => Except.error p
    | Except.ok c => Except.ok (load rate c)

/-! ## Arithmetic of the wrapped product -/

theorem wrap_eq_self (x : Int) (hlo : -(2 ^ 63) ≤ x) (hhi : x < 2 ^ 63) : wrap x = x := by
  unfold wrap
  omega

theorem wrap_range (x : Int) : -(2 ^ 63) ≤ wrap x ∧ wrap x < 2 ^ 63 := by
  unfold wrap
  omega

theorem wrap_spec (x : Int) : ∃ k : Int, wrap x = x + 2 ^ 64 * k := by
  refine ⟨-((x + 2 ^ 63) / 2 ^ 64), ?_⟩
  unfold wrap
  omega

theorem wrap_add_mul (x k : Int) : wrap (x + 2 ^ 64 * k) = wrap x := by
  unfold wrap
  have h : x + 2 ^ 64 * k + 2 ^ 63 = (x + 2 ^ 63) + 2 ^ 64 * k := by ring
  rw [h, Int.add_mul_emod_self_left]

theorem wrap_mul_wrap (a b : Int) : wrap (wrap a * b) = wrap (a * b) := by
  obtain ⟨k, hk⟩ := wrap_spec a
  rw [hk]
  have h : (a + 2 ^ 64 * k) * b = a * b + 2 ^ 64 * (k * b) := by ring
  rw [h, wrap_add_mul]

theorem lengthLoop_wrap (dims : List Int) (a : Int) :
    wrap (lengthLoop a dims) = wrap (a * dims.prod) := by
  induction dims generalizing a with
  | nil => simp [lengthLoop]
  | cons d ds ih =>
    rw [lengthLoop, ih, wrap_mul_wrap, List.prod_cons, mul_assoc]

theorem lengthLoop_range (dims : List Int) (a : Int)
    (hlo : -(2 ^ 63) ≤ a) (hhi : a < 2 ^ 63) :
    -(2 ^ 63) ≤ lengthLoop a dims ∧ lengthLoop a dims < 2 ^ 63 := by
  induction dims generalizing a with
  | nil => exact ⟨hlo, hhi⟩
  | cons d ds ih =>
    rw [lengthLoop]
    exact ih _ (wrap_range _).1 (wrap_range _).2

/-- The loop of `NewInput` computes the product of the dimensions wrapped to 64 bits. -/
theorem lengthLoop_one (dims : List Int) : lengthLoop 1 dims = wrap dims.prod := by
  have h := lengthLoop_wrap dims 1
  have r := lengthLoop_range dims 1 (by norm_num) (by norm_num)
  rw [wrap_eq_self _ r.1 r.2, one_mul] at h
  exact h

theorem prod_nonneg_of_forall (dims : List Int) (h : ∀ d ∈ dims, 0 ≤ d) : 0 ≤ dims.prod := by
  induction dims with
  | nil => simp
  | cons d ds ih =>
    rw [List.prod_cons]
    exact mul_nonneg (h d (List.mem_cons_self _ _))
      (ih (fun x hx => h x (List.mem_cons_of_mem _ hx)))

/-- On non-negative dimensions whose product fits, the loop computes the product. -/
theorem lengthLoop_exact (dims : List Int) (hnn : ∀ d ∈ dims, 0 ≤ d)
    (hfit : dims.prod < 2 ^ 63) : lengthLoop 1 dims = dims.prod := by
  rw [lengthLoop_one]
  have h0 := prod_nonneg_of_forall dims hnn
  exact wrap_eq_self _ (by omega) hfit

/-! ## Facts about `NewInput` and the effective shape -/

theorem appendAll_one (dims : Slice Int) :
    (Slice.mk [1]).appendAll dims = Slice.mk (1 :: dims.toList) := by
  unfold Slice.appendAll
  cases h : dims.toList with
  | nil => rfl
  | cons y ys => rfl

theorem effectiveShape_batched (c : Config) (dims : Slice Int) (h : c.MaxBatchSize ≥ 1) :
    effectiveShape c dims = Slice.mk (1 :: dims.toList) := by
  unfold effectiveShape
  rw [if_pos h, appendAll_one]

theorem effectiveShape_plain (c : Config) (dims : Slice Int) (h : c.MaxBatchSize < 1) :
    effectiveShape c dims = dims := by
  unfold effectiveShape
  rw [if_neg (by omega)]

theorem effectiveShape_toList (c : Config) (dims : Slice Int) :
    (effectiveShape c dims).toList = dims.toList
      ∨ (effectiveShape c dims).toList = 1 :: dims.toList := by
  by_cases h : c.MaxBatchSize ≥ 1
  · right
    rw [effectiveShape_batched c dims h]
    rfl
  · left
    rw [effectiveShape_plain c dims (by omega)]

theorem effectiveShape_prod (c : Config) (dims : Slice Int) :
    (effectiveShape c dims).toList.prod = dims.toList.prod := by
  rcases effectiveShape_toList c dims with h | h <;> rw [h]
  simp

theorem effectiveShape_nonneg (c : Config) (dims : Slice Int)
    (h : ∀ d ∈ dims.toList, 0 ≤ d) : ∀ d ∈ (effectiveShape c dims).toList, 0 ≤ d := by
  intro d hd
  rcases effectiveShape_toList c dims with e | e <;> rw [e] at hd
  · exact h d hd
  · rcases List.mem_cons.mp hd with rfl | hd
    · norm_num
    · exact h d hd

/-- A returned tensor carries the name, the stripped datatype `FP32` and the shape
it was given. -/
theorem NewInput_ok_fields (name datatype : String) (dims : Slice Int) (i : Input)
    (h : NewInput name datatype dims = Except.ok i) :
    i.Name = name ∧ i.Datatype = "FP32" ∧ TrimPrefix datatype "TYPE_" = "FP32"
      ∧ i.Shape = dims := by
  unfold NewInput at h
  simp only at h
  split at h
  · rename_i hdt
    split at h
    · exact absurd h (by simp)
    · have e := Except.ok.inj h
      subst e
      exact ⟨rfl, hdt, hdt, rfl⟩
  · exact absurd h (by simp)

/-- With an unsupported datatype `NewInput` panics with the message naming it. -/
theorem NewInput_unsupported (name datatype : String) (dims : Slice Int)
    (h : TrimPrefix datatype "TYPE_" ≠ "FP32") :
    NewInput name datatype dims
      = Except.error (Panic.str
          ("NewInput: datatype " ++ TrimPrefix datatype "TYPE_" ++ " not supported")) := by
  unfold NewInput
  simp only
  rw [if_neg h]

/-- With the supported datatype and a length within the runtime's limits `NewInput`
returns. -/
theorem NewInput_supported (name datatype : String) (dims : Slice Int)
    (h : TrimPrefix datatype "TYPE_" = "FP32") (hlen : 0 ≤ lengthLoop 1 dims.toList)
    (hcap : 4 * lengthLoop 1 dims.toList ≤ maxAlloc) :
    NewInput name datatype dims
      = Except.ok { Name := name, Datatype := "FP32", Shape := dims,
                    Data := marshalFloat32Zeros (lengthLoop 1 dims.toList).toNat } := by
  unfold NewInput
  simp only
  rw [if_pos h, if_neg (by omega), h]

/-- With the supported datatype and a length beyond the runtime's limit `NewInput`
panics in `make`. -/
theorem NewInput_too_large (name datatype : String) (dims : Slice Int)
    (h : TrimPrefix datatype "TYPE_" = "FP32")
    (hcap : maxAlloc < 4 * lengthLoop 1 dims.toList) :
    NewInput name datatype dims
      = Except.error (Panic.runtime "makeslice: len out of range") := by
  unfold NewInput
  simp only
  rw [if_pos h, if_pos (Or.inr hcap)]

/-! ## Facts about the input loop -/

/-- When the loop returns, it has appended one tensor for each non-optional spec, in
order, and the result is the slice it started from only if it appended nothing. -/
theorem inputLoop_ok (c : Config) (l : List InputSpec) (acc out : Slice Input)
    (h : inputLoop c l acc = Except.ok out) :
    ∃ ts, List.Forall₂ (builtFrom c) (l.filter (fun s => !s.Optional)) ts
      ∧ out.toList = acc.toList ++ ts
      ∧ (ts = [] → out = acc)
      ∧ (ts ≠ [] → out = Slice.mk (acc.toList ++ ts)) := by
  induction l generalizing acc with
  | nil =>
    rw [inputLoop] at h
    have e := Except.ok.inj h
    subst e
    exact ⟨[], List.Forall₂.nil, by simp, fun _ => rfl, fun hne => absurd rfl hne⟩
  | cons x rest ih =>
    rw [inputLoop] at h
    cases hopt : x.Optional with
    | true =>
      rw [hopt] at h
      simp only [Bool.not_true, Bool.false_eq_true, if_false] at h
      obtain ⟨ts, hts, hl, he, hne⟩ := ih acc h
      refine ⟨ts, ?_, hl, he, hne⟩
      simpa [List.filter, hopt] using hts
    | false =>
      rw [hopt] at h
      simp only [Bool.not_false, if_true] at h
      cases hN : NewInput x.Name x.Datatype (effectiveShape c x.Dims) with
      | error p =>
        rw [hN] at h
        exact absurd h (by simp)
      | ok i =>
        rw [hN] at h
        simp only at h
        obtain ⟨ts, hts, hl, he, hne⟩ := ih (acc.append i) h
        have hl2 : out.toList = acc.toList ++ i :: ts := by
          rw [hl]
          simp [Slice.append, Slice.toList]
        refine ⟨i :: ts, ?_, hl2, fun hnil => absurd hnil (by simp), fun _ => ?_⟩
        · have hf : (x :: rest).filter (fun s => !s.Optional)
              = x :: rest.filter (fun s => !s.Optional) := by
            simp [List.filter, hopt]
          rw [hf]
          exact List.Forall₂.cons hN hts
        · by_cases hts0 : ts = []
          · rw [he hts0, hts0]
            simp [Slice.append]
          · rw [hne hts0]
            simp [Slice.append, Slice.toList]

/-- When synthesis returns, its tensors are built one by one from the non-optional
specs, in schema order. -/
theorem synthesize_ok (c : Config) (tensors : Slice Input)
    (h : synthesize c = Except.ok tensors) :
    List.Forall₂ (builtFrom c) (c.Input.filter (fun s => !s.Optional)) tensors.toList
      ∧ (tensors.toList = [] → tensors = Slice.nil)
      ∧ (tensors.toList ≠ [] → tensors = Slice.mk tensors.toList) := by
  obtain ⟨ts, hts, hl, he, hne⟩ := inputLoop_ok c c.Input Slice.nil tensors h
  have hl2 : tensors.toList = ts := by
    rw [hl]
    simp [Slice.toList]
  rw [hl2]
  refine ⟨hts, he, fun h0 => ?_⟩
  rw [hne h0]
  simp [Slice.toList]

/-- Optional specs play no part in the loop. -/
theorem inputLoop_filter (c : Config) (l : List InputSpec) (acc : Slice Input) :
    inputLoop c (l.filter (fun s => !s.Optional)) acc = inputLoop c l acc := by
  induction l generalizing acc with
  | nil => rfl
  | cons x rest ih =>
    cases hopt : x.Optional with
    | true =>
      have hf : (x :: rest).filter (fun s => !s.Optional)
          = rest.filter (fun s => !s.Optional) := by
        simp [List.filter, hopt]
      rw [hf, ih, inputLoop.eq_2]
      simp [hopt]
    | false =>
      have hf : (x :: rest).filter (fun s => !s.Optional)
          = x :: rest.filter (fun s => !s.Optional) := by
        simp [List.filter, hopt]
      rw [hf, inputLoop.eq_2, inputLoop.eq_2]
      simp only [hopt, Bool.not_false, if_true]
      cases NewInput x.Name x.Datatype (effectiveShape c x.Dims) with
      | error p => rfl
      | ok i => exact ih _

/-- On well-formed dimensions the loop either returns, having got past every spec, or
panics at the first spec it does not get past, with the panic value of that spec. -/
theorem inputLoop_cases (c : Config) (l : List InputSpec) (acc : Slice Input)
    (hd : ∀ s ∈ l, (∀ d ∈ s.Dims.toList, 0 ≤ d) ∧ s.Dims.toList.prod < 2 ^ 63) :
    (∃ out, inputLoop c l acc = Except.ok out ∧ ∀ x ∈ l, passes x)
    ∨ (∃ pre s post p, l = pre ++ s :: post ∧ (∀ x ∈ pre, passes x)
        ∧ stopsWith s p ∧ inputLoop c l acc = Except.error p) := by
  induction l generalizing acc with
  | nil => exact Or.inl ⟨acc, rfl, fun x hx => absurd hx (by simp)⟩
  | cons x rest ih =>
    have hrest : ∀ s ∈ rest, (∀ d ∈ s.Dims.toList, 0 ≤ d) ∧ s.Dims.toList.prod < 2 ^ 63 :=
      fun s hs => hd s (List.mem_cons_of_mem _ hs)
    have step : ∀ acc2 : Slice Input, inputLoop c (x :: rest) acc = inputLoop c rest acc2 →
        passes x →
        (∃ out, inputLoop c (x :: rest) acc = Except.ok out ∧ ∀ y ∈ x :: rest, passes y)
        ∨ (∃ pre s post p, x :: rest = pre ++ s :: post ∧ (∀ y ∈ pre, passes y)
            ∧ stopsWith s p ∧ inputLoop c (x :: rest) acc = Except.error p) := by
      intro acc2 heq hx
      rcases ih acc2 hrest with ⟨out, ho, hall⟩ | ⟨pre, s, post, p, hsplit, hpre, hs, herr⟩
      · left
        refine ⟨out, by rw [heq, ho], fun y hy => ?_⟩
        rcases List.mem_cons.mp hy with rfl | hy
        · exact hx
        · exact hall y hy
      · right
        refine ⟨x :: pre, s, post, p, by rw [hsplit]; rfl, fun y hy => ?_, hs,
          by rw [heq, herr]⟩
        rcases List.mem_cons.mp hy with rfl | hy
        · exact hx
        · exact hpre y hy
    cases hopt : x.Optional with
    | true =>
      refine step acc ?_ (Or.inl hopt)
      rw [inputLoop.eq_2]
      simp [hopt]
    | false =>
      have hx := hd x (List.mem_cons_self _ _)
      have hlen : lengthLoop 1 (effectiveShape c x.Dims).toList = x.Dims.toList.prod := by
        rw [lengthLoop_exact _ (effectiveShape_nonneg c x.Dims hx.1)
          (by rw [effectiveShape_prod]; exact hx.2), effectiveShape_prod]
      have h0 : 0 ≤ x.Dims.toList.prod := prod_nonneg_of_forall _ hx.1
      by_cases hdt : TrimPrefix x.Datatype "TYPE_" = "FP32"
      · by_cases hcap : 4 * x.Dims.toList.prod ≤ maxAlloc
        · have hN := NewInput_supported x.Name x.Datatype (effectiveShape c x.Dims) hdt
            (by rw [hlen]; exact h0) (by rw [hlen]; exact hcap)
          refine step (acc.append
            { Name := x.Name, Datatype := "FP32", Shape := effectiveShape c x.Dims,
              Data := marshalFloat32Zeros
                (lengthLoop 1 (effectiveShape c x.Dims).toList).toNat }) ?_
            (Or.inr ⟨hdt, hcap⟩)
          rw [inputLoop.eq_2]
          simp only [hopt, Bool.not_false, if_true]
          rw [hN]
        · right
          have hbig : maxAlloc < 4 * x.Dims.toList.prod := by omega
          refine ⟨[], x, rest, _, rfl, fun y hy => absurd hy (by simp),
            ⟨hopt, Or.inr ⟨hdt, hbig, rfl⟩⟩, ?_⟩
          rw [inputLoop.eq_2]
          simp only [hopt, Bool.not_false, if_true]
          rw [NewInput_too_large x.Name x.Datatype (effectiveShape c x.Dims) hdt
            (by rw [hlen]; exact hbig)]
      · right
        refine ⟨[], x, rest, _, rfl, fun y hy => absurd hy (by simp),
          ⟨hopt, Or.inl ⟨hdt, rfl⟩⟩, ?_⟩
        rw [inputLoop.eq_2]
        simp only [hopt, Bool.not_false, if_true]
        rw [NewInput_unsupported x.Name x.Datatype (effectiveShape c x.Dims) hdt]

/-- Two lists related element by element have the same images under functions the
relation equates. -/
theorem map_eq_of_forall₂ {α β γ : Type} (f : α → γ) (g : β → γ) (R : α → β → Prop)
    (hR : ∀ a b, R a b → g b = f a) (l1 : List α) (l2 : List β)
    (h : List.Forall₂ R l1 l2) : l2.map g = l1.map f := by
  induction h with
  | nil => rfl
  | cons hab _ ih => simp [hR _ _ hab, ih]

/-- The loop reads the schema's batch size and nothing else of it. -/
theorem inputLoop_congr (c c2 : Config) (hb : c2.MaxBatchSize = c.MaxBatchSize)
    (l : List InputSpec) (acc : Slice Input) : inputLoop c2 l acc = inputLoop c l acc := by
  induction l generalizing acc with
  | nil => rfl
  | cons x rest ih =>
    have hs : effectiveShape c2 x.Dims = effectiveShape c x.Dims := by
      unfold effectiveShape
      rw [hb]
    rw [inputLoop.eq_2, inputLoop.eq_2, hs]
    cases x.Optional with
    | true => simpa using ih acc
    | false =>
      simp only [Bool.not_false, if_true]
      cases NewInput x.Name x.Datatype (effectiveShape c x.Dims) with
      | error p => rfl
      | ok i => exact ih _

/-! ## The shape of the marshalled text -/

theorem intercalate_go_front (sep : String) (l : List String) (acc : String) :
    ∃ t, String.intercalate.go acc sep l = acc ++ t := by
  induction l generalizing acc with
  | nil => exact ⟨"", by simp [String.intercalate.go]⟩
  | cons a as ih =>
    obtain ⟨t, ht⟩ := ih (acc ++ sep ++ a)
    refine ⟨sep ++ a ++ t, ?_⟩
    rw [String.intercalate.go, ht]
    simp [String.append_assoc]

theorem intercalate_go_back (z sep : String) (l : List String) (acc : String)
    (hacc : ∃ u, acc = u ++ z) (hl : ∀ a ∈ l, ∃ u, a = u ++ z) :
    ∃ u, String.intercalate.go acc sep l = u ++ z := by
  induction l generalizing acc with
  | nil => simpa [String.intercalate.go] using hacc
  | cons a as ih =>
    rw [String.intercalate.go]
    obtain ⟨u, hu⟩ := hl a (List.mem_cons_self _ _)
    refine ih _ ⟨acc ++ sep ++ u, ?_⟩ (fun b hb => hl b (List.mem_cons_of_mem _ hb))
    rw [hu]
    simp [String.append_assoc]

/-- A marshalled tensor opens as a JSON object with the `name` field first. -/
theorem marshalInput_front (i : Input) :
    ∃ r, marshalInput i = "\x7b\"name\":\"" ++ r := by
  refine ⟨⟨i.Name.data.flatMap escapeChar ++ ['"']⟩ ++ ",\"datatype\":"
    ++ marshalString i.Datatype ++ ",\"shape\":" ++ marshalInts i.Shape ++ ",\"data\":"
    ++ i.Data ++ "\x7d", ?_⟩
  apply String.ext
  simp [marshalInput, marshalString, String.data_append]

/-- A marshalled tensor closes as a JSON object. -/
theorem marshalInput_back (i : Input) : ∃ u, marshalInput i = u ++ "\x7d" :=
  ⟨_, rfl⟩

/-- The body of a request with at least one tensor opens the array of `inputs` with
the first tensor's object and closes it after the last one's. -/
theorem marshalInfer_cons (x : Input) (xs : List Input) :
    (∃ rest, marshalInfer { Inputs := Slice.mk (x :: xs) }
        = "\x7b\"inputs\":[\x7b\"name\":\"" ++ rest)
      ∧ (∃ front, marshalInfer { Inputs := Slice.mk (x :: xs) }
        = front ++ "\x7d]\x7d") := by
  obtain ⟨t, ht⟩ := intercalate_go_front "," (xs.map marshalInput) (marshalInput x)
  obtain ⟨r, hr⟩ := marshalInput_front x
  obtain ⟨u, hu⟩ := intercalate_go_back "\x7d" "," (xs.map marshalInput) (marshalInput x)
    (marshalInput_back x) (by
      intro a ha
      obtain ⟨y, _, rfl⟩ := List.mem_map.mp ha
      exact marshalInput_back y)
  have hi : ",".intercalate ((x :: xs).map marshalInput)
      = String.intercalate.go (marshalInput x) "," (xs.map marshalInput) := rfl
  constructor
  · refine ⟨r ++ t ++ "]" ++ "\x7d", ?_⟩
    simp only [marshalInfer, marshalInputs, jsonArray]
    rw [hi, ht, hr]
    apply String.ext
    simp [String.data_append]
  · refine ⟨"\x7b\"inputs\":" ++ "[" ++ u, ?_⟩
    simp only [marshalInfer, marshalInputs, jsonArray]
    rw [hi, hu]
    apply String.ext
    simp [String.data_append]

/-! ## The claims on payload synthesis -/

/-- C1. When payload synthesis returns, the tensor built for each non-optional input
spec has, under a batch size of at least 1, the shape `[1]` followed by the declared
dims (so one element more, the first being 1), and under a batch size below 1 the
declared dims themselves. -/
theorem synthesize_shape (c : Config) (tensors : Slice Input)
    (h : synthesize c = Except.ok tensors) :
    List.Forall₂
      (fun (spec : InputSpec) (tensor : Input) =>
        (c.MaxBatchSize ≥ 1 →
          tensor.Shape = Slice.mk (1 :: spec.Dims.toList)
            ∧ tensor.Shape.toList.length = spec.Dims.toList.length + 1
            ∧ tensor.Shape.toList.head? = some 1)
        ∧ (c.MaxBatchSize < 1 → tensor.Shape = spec.Dims))
      (c.Input.filter (fun s => !s.Optional)) tensors.toList := by
  refine List.Forall₂.imp ?_ (synthesize_ok c tensors h).1
  intro spec tensor hb
  have hs := (NewInput_ok_fields _ _ _ _ hb).2.2.2
  constructor
  · intro hge
    rw [hs, effectiveShape_batched c spec.Dims hge]
    exact ⟨rfl, rfl, rfl⟩
  · intro hlt
    rw [hs, effectiveShape_plain c spec.Dims hlt]

/-- C2. When payload synthesis returns, the names of its tensors are the names of the
schema's non-optional input specs in schema order, and there are as many tensors as
non-optional specs. -/
theorem synthesize_names (c : Config) (tensors : Slice Input)
    (h : synthesize c = Except.ok tensors) :
    tensors.toList.map Input.Name
        = (c.Input.filter (fun s => !s.Optional)).map InputSpec.Name
      ∧ tensors.toList.length = (c.Input.filter (fun s => !s.Optional)).length := by
  have hf := (synthesize_ok c tensors h).1
  refine ⟨map_eq_of_forall₂ InputSpec.Name Input.Name (builtFrom c) ?_ _ _ hf,
    hf.length_eq.symm⟩
  intro spec tensor hb
  exact (NewInput_ok_fields _ _ _ _ hb).1

/-- C3, as the claim states it, fails: the shape `[2 ^ 62]` is non-negative and its
product fits the machine integer, yet `make` refuses the length and `NewInput`
panics instead of returning a tensor. -/
theorem NewInput_huge :
    TrimPrefix "TYPE_FP32" "TYPE_" = "FP32"
      ∧ (∀ d ∈ (Slice.mk [4611686018427387904] : Slice Int).toList, 0 ≤ d)
      ∧ (Slice.mk [4611686018427387904] : Slice Int).toList.prod < 2 ^ 63
      ∧ NewInput "X" "TYPE_FP32" (Slice.mk [4611686018427387904])
          = Except.error (Panic.runtime "makeslice: len out of range") := by
  refine ⟨by decide, by decide, by decide, ?_⟩
  rfl

/-- C3, amended. For a datatype that strips to `FP32` and a shape of non-negative
dimensions whose product fits the machine integer: when 4 bytes an element stay
within the runtime's allocation limit, `NewInput` returns a tensor whose data is the
JSON array of product-of-the-shape zeros, `[0]` for the empty shape and `[]` for a
shape with a zero dimension; when they exceed it, `NewInput` panics in `make`. -/
theorem NewInput_data (name datatype : String) (shape : Slice Int)
    (hdt : TrimPrefix datatype "TYPE_" = "FP32")
    (hnn : ∀ d ∈ shape.toList, 0 ≤ d) (hfit : shape.toList.prod < 2 ^ 63) :
    (4 * shape.toList.prod ≤ maxAlloc →
        ∃ i, NewInput name datatype shape = Except.ok i
          ∧ i.Name = name ∧ i.Datatype = "FP32" ∧ i.Shape = shape
          ∧ i.Data
              = "[" ++ ",".intercalate (List.replicate shape.toList.prod.toNat "0") ++ "]"
          ∧ (shape.toList = [] → i.Data = "[0]")
          ∧ (0 ∈ shape.toList → i.Data = "[]"))
      ∧ (maxAlloc < 4 * shape.toList.prod →
          NewInput name datatype shape
            = Except.error (Panic.runtime "makeslice: len out of range")) := by
  have hlen := lengthLoop_exact shape.toList hnn hfit
  have h0 : 0 ≤ lengthLoop 1 shape.toList := by
    rw [hlen]
    exact prod_nonneg_of_forall _ hnn
  constructor
  · intro hcap
    refine ⟨_, NewInput_supported name datatype shape hdt h0 (by rw [hlen]; exact hcap),
      rfl, rfl, rfl, ?_, ?_, ?_⟩
    · simp only [hlen, marshalFloat32Zeros, jsonArray]
    · intro he
      simp only [hlen, he, marshalFloat32Zeros, jsonArray]
      rfl
    · intro hz
      simp only [hlen, List.prod_eq_zero hz, marshalFloat32Zeros, jsonArray]
      rfl
  · intro hcap
    exact NewInput_too_large name datatype shape hdt (by rw [hlen]; exact hcap)

/-- The scenario schema meets the hypothesis of `synthesize_shape`. -/
theorem synthesize_shape_witness :
    synthesize scenario = Except.ok scenarioTensors
      ∧ List.Forall₂
          (fun (spec : InputSpec) (tensor : Input) =>
            (scenario.MaxBatchSize ≥ 1 →
              tensor.Shape = Slice.mk (1 :: spec.Dims.toList)
                ∧ tensor.Shape.toList.length = spec.Dims.toList.length + 1
                ∧ tensor.Shape.toList.head? = some 1)
            ∧ (scenario.MaxBatchSize < 1 → tensor.Shape = spec.Dims))
          (scenario.Input.filter (fun s => !s.Optional)) scenarioTensors.toList :=
  ⟨rfl, synthesize_shape scenario scenarioTensors rfl⟩

/-- A schema with an optional input first meets the hypothesis of
`synthesize_names`: the two names left are in schema order. -/
theorem synthesize_names_witness :
    synthesize mixedSchema = Except.ok mixedTensors
      ∧ mixedTensors.toList.map Input.Name = ["A", "B"]
      ∧ mixedTensors.toList.length = 2 :=
  ⟨rfl, synthesize_names mixedSchema mixedTensors rfl⟩

/-- The shape of the scenario meets the hypotheses of `NewInput_data`. -/
theorem NewInput_data_witness :
    ∃ i, NewInput "INPUT0" "TYPE_FP32" (Slice.mk [1, 3]) = Except.ok i
      ∧ i.Name = "INPUT0" ∧ i.Datatype = "FP32" ∧ i.Shape = Slice.mk [1, 3]
      ∧ i.Data = "[" ++ ",".intercalate (List.replicate 3 "0") ++ "]"
      ∧ ((Slice.mk [1, 3] : Slice Int).toList = [] → i.Data = "[0]")
      ∧ (0 ∈ (Slice.mk [1, 3] : Slice Int).toList → i.Data = "[]") :=
  (NewInput_data "INPUT0" "TYPE_FP32" (Slice.mk [1, 3]) (by decide) (by decide)
    (by decide)).1 (by decide)

/-- C4. For the scenario schema the declared datatype `TYPE_FP32` is stripped to
`FP32`, the request body `infer` builds is the stated byte string, and that is the
body of the one request `infer` posts. -/
theorem scenario_body :
    TrimPrefix "TYPE_FP32" "TYPE_" = "FP32"
      ∧ synthesize scenario = Except.ok scenarioTensors
      ∧ requestBody scenario = Except.ok
          "\x7b\"inputs\":[\x7b\"name\":\"INPUT0\",\"datatype\":\"FP32\",\"shape\":[1,3],\"data\":[0,0,0]\x7d]\x7d"
      ∧ ∀ (authority model : String) (post : String → String → String → PostOutcome)
          (t : Time),
          (infer authority model post scenario t).posted
            = [(inferURL authority model, "application/json",
                "\x7b\"inputs\":[\x7b\"name\":\"INPUT0\",\"datatype\":\"FP32\",\"shape\":[1,3],\"data\":[0,0,0]\x7d]\x7d")] := by
  refine ⟨by decide, rfl, rfl, ?_⟩
  intro authority model post t
  have hb : requestBody scenario = Except.ok scenarioBody := rfl
  unfold infer
  rw [hb]
  simp only
  cases post (inferURL authority model) "application/json" scenarioBody with
  | transportError err => rfl
  | response status statusCode read =>
    cases read with
    | error err => rfl
    | ok respBody =>
      simp only
      split <;> rfl

/-- C5, as the claim states it, fails: the one input of `hugeSchema` is non-optional,
of datatype `FP32`, with a non-negative dimension whose product fits, and payload
synthesis panics all the same, in `make`, with the runtime's error. -/
theorem synthesize_huge :
    (∀ s ∈ hugeSchema.Input, (∀ d ∈ s.Dims.toList, 0 ≤ d) ∧ s.Dims.toList.prod < 2 ^ 63)
      ∧ synthesize hugeSchema
          = Except.error (Panic.runtime "makeslice: len out of range")
      ∧ ¬ ∃ s ∈ hugeSchema.Input,
          s.Optional = false ∧ TrimPrefix s.Datatype "TYPE_" ≠ "FP32" := by
  refine ⟨by decide, rfl, by decide⟩

/-- C5, amended. On a schema whose dims are non-negative with products that fit,
payload synthesis panics exactly when some non-optional input's declared datatype,
one leading `TYPE_` removed, is not `FP32`, or is `FP32` with more elements than
`make` allocates; it panics at the first such input in schema order, with the
message naming the stripped datatype in the first case and the runtime's error in
the second.  When every non-optional `FP32` input is within the allocation limit,
it panics exactly when some non-optional input is of another datatype, with the
message naming the first one.  The outcome depends on the batch size and the
non-optional inputs only. -/
theorem synthesize_abort (c : Config)
    (hd : ∀ s ∈ c.Input, (∀ d ∈ s.Dims.toList, 0 ≤ d) ∧ s.Dims.toList.prod < 2 ^ 63) :
    ((∃ p, synthesize c = Except.error p)
        ↔ ∃ s ∈ c.Input, s.Optional = false
            ∧ (TrimPrefix s.Datatype "TYPE_" ≠ "FP32" ∨ maxAlloc < 4 * s.Dims.toList.prod))
      ∧ (∀ p, synthesize c = Except.error p →
          ∃ pre s post, c.Input = pre ++ s :: post
            ∧ (∀ x ∈ pre, x.Optional = true
                ∨ (TrimPrefix x.Datatype "TYPE_" = "FP32"
                    ∧ 4 * x.Dims.toList.prod ≤ maxAlloc))
            ∧ s.Optional = false
            ∧ ((TrimPrefix s.Datatype "TYPE_" ≠ "FP32"
                  ∧ p = Panic.str
                      ("NewInput: datatype " ++ TrimPrefix s.Datatype "TYPE_"
                        ++ " not supported"))
              ∨ (TrimPrefix s.Datatype "TYPE_" = "FP32"
                  ∧ maxAlloc < 4 * s.Dims.toList.prod
                  ∧ p = Panic.runtime "makeslice: len out of range")))
      ∧ ((∀ s ∈ c.Input, s.Optional = false → TrimPrefix s.Datatype "TYPE_" = "FP32" →
            4 * s.Dims.toList.prod ≤ maxAlloc) →
          ((∃ p, synthesize c = Except.error p)
              ↔ ∃ s ∈ c.Input, s.Optional = false ∧ TrimPrefix s.Datatype "TYPE_" ≠ "FP32")
            ∧ (∀ p, synthesize c = Except.error p →
                ∃ pre s post, c.Input = pre ++ s :: post
                  ∧ (∀ x ∈ pre, x.Optional = true ∨ TrimPrefix x.Datatype "TYPE_" = "FP32")
                  ∧ s.Optional = false ∧ TrimPrefix s.Datatype "TYPE_" ≠ "FP32"
                  ∧ p = Panic.str
                      ("NewInput: datatype " ++ TrimPrefix s.Datatype "TYPE_"
                        ++ " not supported")))
      ∧ (∀ c2 : Config, c2.MaxBatchSize = c.MaxBatchSize →
          c2.Input.filter (fun s => !s.Optional) = c.Input.filter (fun s => !s.Optional) →
          synthesize c2 = synthesize c) := by
  have key := inputLoop_cases c c.Input Slice.nil hd
  have hiff : (∃ p, synthesize c = Except.error p)
      ↔ ∃ s ∈ c.Input, s.Optional = false
          ∧ (TrimPrefix s.Datatype "TYPE_" ≠ "FP32" ∨ maxAlloc < 4 * s.Dims.toList.prod) := by
    constructor
    · rintro ⟨p, hp⟩
      rcases key with ⟨out, ho, _⟩ | ⟨pre, s, post, q, hsplit, _, hs, _⟩
      · unfold synthesize at hp
        rw [ho] at hp
        exact absurd hp (by simp)
      · refine ⟨s, by rw [hsplit]; simp, hs.1, ?_⟩
        rcases hs.2 with ⟨h1, _⟩ | ⟨_, h2, _⟩
        · exact Or.inl h1
        · exact Or.inr h2
    · rintro ⟨s, hs, hs1, hs2⟩
      rcases key with ⟨out, _, hall⟩ | ⟨pre, s2, post, q, _, _, _, herr⟩
      · rcases hall s hs with h | ⟨h1, h2⟩
        · rw [hs1] at h
          exact absurd h (by simp)
        · rcases hs2 with h3 | h3
          · exact absurd h1 h3
          · omega
      · exact ⟨_, herr⟩
  have hfirst : ∀ p, synthesize c = Except.error p →
      ∃ pre s post, c.Input = pre ++ s :: post ∧ (∀ x ∈ pre, passes x) ∧ stopsWith s p := by
    intro p hp
    rcases key with ⟨out, ho, _⟩ | ⟨pre, s, post, q, hsplit, hpre, hs, herr⟩
    · unfold synthesize at hp
      rw [ho] at hp
      exact absurd hp (by simp)
    · unfold synthesize at hp
      rw [herr] at hp
      have e := Except.error.inj hp
      subst e
      exact ⟨pre, s, post, hsplit, hpre, hs⟩
  refine ⟨hiff, ?_, ?_, ?_⟩
  · intro p hp
    obtain ⟨pre, s, post, hsplit, hpre, hs⟩ := hfirst p hp
    exact ⟨pre, s, post, hsplit, hpre, hs.1, hs.2⟩
  · intro hcap
    constructor
    · rw [hiff]
      constructor
      · rintro ⟨s, hs, hs1, hs2⟩
        refine ⟨s, hs, hs1, ?_⟩
        rcases hs2 with h | h
        · exact h
        · intro hfp
          have := hcap s hs hs1 hfp
          omega
      · rintro ⟨s, hs, hs1, hs2⟩
        exact ⟨s, hs, hs1, Or.inl hs2⟩
    · intro p hp
      obtain ⟨pre, s, post, hsplit, hpre, hs⟩ := hfirst p hp
      have hmem : s ∈ c.Input := by rw [hsplit]; simp
      rcases hs.2 with ⟨h1, h2⟩ | ⟨h1, h2, _⟩
      · refine ⟨pre, s, post, hsplit, fun x hx => ?_, hs.1, h1, h2⟩
        rcases hpre x hx with h | ⟨h, _⟩
        · exact Or.inl h
        · exact Or.inr h
      · have := hcap s hmem hs.1 h1
        omega
  · intro c2 hb hf
    unfold synthesize
    rw [← inputLoop_filter c2, ← inputLoop_filter c, hf]
    exact inputLoop_congr c c2 hb _ _

/-- A schema whose second non-optional input is of type `TYPE_INT8` meets the
hypothesis of `synthesize_abort`; the panic names `INT8`. -/
theorem synthesize_abort_witness :
    (∀ s ∈ int8Schema.Input, (∀ d ∈ s.Dims.toList, 0 ≤ d) ∧ s.Dims.toList.prod < 2 ^ 63)
      ∧ synthesize int8Schema
          = Except.error (Panic.str "NewInput: datatype INT8 not supported")
      ∧ ((∃ p, synthesize int8Schema = Except.error p)
          ↔ ∃ s ∈ int8Schema.Input, s.Optional = false
              ∧ (TrimPrefix s.Datatype "TYPE_" ≠ "FP32"
                  ∨ maxAlloc < 4 * s.Dims.toList.prod)) :=
  ⟨by decide, rfl, (synthesize_abort int8Schema (by decide)).1⟩

/-- C10. For a schema without a non-optional input, payload synthesis leaves the
inputs slice nil and the request body is `\x7b"inputs":null\x7d`, not
`\x7b"inputs":[]\x7d`; for a schema with a non-optional input on which synthesis
returns, the slice is allocated and not empty and the value of `inputs` in the body
is the JSON array of its tensors: the body opens that array with the first tensor's
object, closes it after the last one's, and is neither `\x7b"inputs":[]\x7d` nor
`\x7b"inputs":null\x7d`. -/
theorem requestBody_inputs (c : Config) :
    ((∀ s ∈ c.Input, s.Optional = true) →
        synthesize c = Except.ok Slice.nil
          ∧ requestBody c = Except.ok "\x7b\"inputs\":null\x7d"
          ∧ requestBody c ≠ Except.ok "\x7b\"inputs\":[]\x7d")
      ∧ (∀ tensors, (∃ s ∈ c.Input, s.Optional = false) →
          synthesize c = Except.ok tensors →
          ∃ x xs, tensors = Slice.mk (x :: xs)
            ∧ (x :: xs).length = (c.Input.filter (fun s => !s.Optional)).length
            ∧ requestBody c = Except.ok
                ("\x7b\"inputs\":"
                  ++ ("[" ++ ",".intercalate ((x :: xs).map marshalInput) ++ "]")
                  ++ "\x7d")
            ∧ (∃ rest, requestBody c
                = Except.ok ("\x7b\"inputs\":[\x7b\"name\":\"" ++ rest))
            ∧ (∃ front, requestBody c = Except.ok (front ++ "\x7d]\x7d"))
            ∧ requestBody c ≠ Except.ok "\x7b\"inputs\":[]\x7d"
            ∧ requestBody c ≠ Except.ok "\x7b\"inputs\":null\x7d") := by
  constructor
  · intro hall
    have hf : c.Input.filter (fun s => !s.Optional) = [] := by
      rw [List.filter_eq_nil_iff]
      intro s hs
      simp [hall s hs]
    have hsyn : synthesize c = Except.ok Slice.nil := by
      unfold synthesize
      rw [← inputLoop_filter, hf]
      rfl
    have hbody : requestBody c = Except.ok "\x7b\"inputs\":null\x7d" := by
      unfold requestBody
      rw [hsyn]
      rfl
    refine ⟨hsyn, hbody, ?_⟩
    rw [hbody]
    decide
  · rintro tensors ⟨s, hs, hopt⟩ hsyn
    obtain ⟨hf, _, hne⟩ := synthesize_ok c tensors hsyn
    have hmem : s ∈ c.Input.filter (fun s => !s.Optional) := by
      rw [List.mem_filter]
      exact ⟨hs, by simp [hopt]⟩
    have hlen := hf.length_eq
    cases hts : tensors.toList with
    | nil =>
      rw [hts] at hlen
      have hpos := List.length_pos_of_mem hmem
      rw [hlen] at hpos
      exact absurd hpos (by simp)
    | cons x xs =>
      have hmk : tensors = Slice.mk (x :: xs) := by
        rw [← hts]
        exact hne (by rw [hts]; simp)
      have hbody : requestBody c
          = Except.ok (marshalInfer { Inputs := Slice.mk (x :: xs) }) := by
        unfold requestBody
        rw [hsyn, hmk]
      obtain ⟨⟨rest, hrest⟩, ⟨front, hfront⟩⟩ := marshalInfer_cons x xs
      have hopen : requestBody c
          = Except.ok ("\x7b\"inputs\":[\x7b\"name\":\"" ++ rest) := by
        rw [hbody, hrest]
      refine ⟨x, xs, hmk, by rw [← hts]; exact hlen.symm, hbody, ⟨rest, hopen⟩,
        ⟨front, by rw [hbody, hfront]⟩, ?_, ?_⟩
      · rw [hopen]
        intro h
        have h2 := congrArg String.data (Except.ok.inj h)
        simp at h2
      · rw [hopen]
        intro h
        have h2 := congrArg String.data (Except.ok.inj h)
        simp at h2

/-- Both halves of `requestBody_inputs` at concrete schemas, with the bodies spelled
out: one tensor for the scenario, two for a schema whose first input is optional. -/
theorem requestBody_inputs_witness :
    (synthesize optionalSchema = Except.ok Slice.nil
        ∧ requestBody optionalSchema = Except.ok "\x7b\"inputs\":null\x7d"
        ∧ requestBody optionalSchema ≠ Except.ok "\x7b\"inputs\":[]\x7d")
      ∧ requestBody scenario = Except.ok
          "\x7b\"inputs\":[\x7b\"name\":\"INPUT0\",\"datatype\":\"FP32\",\"shape\":[1,3],\"data\":[0,0,0]\x7d]\x7d"
      ∧ requestBody mixedSchema = Except.ok
          "\x7b\"inputs\":[\x7b\"name\":\"A\",\"datatype\":\"FP32\",\"shape\":[2,2],\"data\":[0,0,0,0]\x7d,\x7b\"name\":\"B\",\"datatype\":\"FP32\",\"shape\":null,\"data\":[0]\x7d]\x7d"
      ∧ (∃ x xs, scenarioTensors = Slice.mk (x :: xs)
          ∧ (x :: xs).length = (scenario.Input.filter (fun s => !s.Optional)).length
          ∧ requestBody scenario = Except.ok
              ("\x7b\"inputs\":"
                ++ ("[" ++ ",".intercalate ((x :: xs).map marshalInput) ++ "]")
                ++ "\x7d")
          ∧ (∃ rest, requestBody scenario
              = Except.ok ("\x7b\"inputs\":[\x7b\"name\":\"" ++ rest))
          ∧ (∃ front, requestBody scenario = Except.ok (front ++ "\x7d]\x7d"))
          ∧ requestBody scenario ≠ Except.ok "\x7b\"inputs\":[]\x7d"
          ∧ requestBody scenario ≠ Except.ok "\x7b\"inputs\":null\x7d") :=
  ⟨(requestBody_inputs optionalSchema).1 (by decide), rfl, rfl,
    (requestBody_inputs scenario).2 scenarioTensors (by decide) rfl⟩

/-! ## The claims on `infer` -/

/-- C6. When synthesis returns and the POST is answered with status 200 and a body
read without error, `infer` returns normally having sent exactly one record, the
instant it was called with, whatever the status text and the body. -/
theorem infer_success (authority model : String)
    (post : String → String → String → PostOutcome) (c : Config) (t : Time)
    (tensors : Slice Input) (status respBody : String)
    (hsyn : synthesize c = Except.ok tensors)
    (hpost : post (inferURL authority model) "application/json"
        (marshalInfer { Inputs := tensors })
      = PostOutcome.response status 200 (Except.ok respBody)) :
    (infer authority model post c t).sent = [t]
      ∧ (infer authority model post c t).panicked = none := by
  have hb : requestBody c = Except.ok (marshalInfer { Inputs := tensors }) := by
    unfold requestBody
    rw [hsyn]
  unfold infer
  rw [hb]
  simp only
  rw [hpost]
  simp

/-- The scenario schema and a network answering 200 meet the hypotheses of
`infer_success`. -/
theorem infer_success_witness :
    synthesize scenario = Except.ok scenarioTensors
      ∧ (infer "localhost:8000" "resnet" postOK scenario 1700000000).sent = [1700000000]
      ∧ (infer "localhost:8000" "resnet" postOK scenario 1700000000).panicked = none :=
  ⟨rfl, infer_success "localhost:8000" "resnet" postOK scenario 1700000000
    scenarioTensors "200 OK" "ok" rfl rfl⟩

/-- C7, as the claim states it, fails: a response with status 500 whose body cannot
be read makes `infer` panic with the read error, whose text does not contain the
response status. -/
theorem infer_non200_read_error :
    (infer "localhost:8000" "resnet" postBroken scenario 7).panicked
        = some (Panic.error "unexpected EOF")
      ∧ ¬ ("500 Internal Server Error".data <:+: (Panic.error "unexpected EOF").text.data)
      ∧ ¬ ∃ respBody, (infer "localhost:8000" "resnet" postBroken scenario 7).panicked
          = some (Panic.str ("500 Internal Server Error" ++ "\n" ++ respBody ++ "\n")) := by
  have h : (infer "localhost:8000" "resnet" postBroken scenario 7).panicked
      = some (Panic.error "unexpected EOF") := rfl
  refine ⟨h, by decide, ?_⟩
  rintro ⟨respBody, hr⟩
  rw [h] at hr
  exact Panic.noConfusion (Option.some.inj hr)

/-- C7, amended. When synthesis returns and the POST is answered with a status code
other than 200, `infer` panics and sends no record; the panic value is the message
made of the response status and body when the body is read without error, and the
read error otherwise. -/
theorem infer_non200 (authority model : String)
    (post : String → String → String → PostOutcome) (c : Config) (t : Time)
    (tensors : Slice Input) (status : String) (statusCode : Int)
    (read : Except String String)
    (hsyn : synthesize c = Except.ok tensors)
    (hpost : post (inferURL authority model) "application/json"
        (marshalInfer { Inputs := tensors })
      = PostOutcome.response status statusCode read)
    (hcode : statusCode ≠ 200) :
    (infer authority model post c t).sent = []
      ∧ (∃ p, (infer authority model post c t).panicked = some p)
      ∧ (∀ respBody, read = Except.ok respBody →
          (infer authority model post c t).panicked
            = some (Panic.str (status ++ "\n" ++ respBody ++ "\n")))
      ∧ (∀ err, read = Except.error err →
          (infer authority model post c t).panicked = some (Panic.error err)) := by
  have hb : requestBody c = Except.ok (marshalInfer { Inputs := tensors }) := by
    unfold requestBody
    rw [hsyn]
  unfold infer
  rw [hb]
  simp only
  rw [hpost]
  cases read with
  | error err => simp
  | ok respBody => simp [hcode]

/-- The scenario schema and a network answering 500 meet the hypotheses of
`infer_non200`. -/
theorem infer_non200_witness :
    synthesize scenario = Except.ok scenarioTensors
      ∧ (infer "localhost:8000" "resnet" postBusy scenario 7).sent = []
      ∧ (∃ p, (infer "localhost:8000" "resnet" postBusy scenario 7).panicked = some p)
      ∧ (∀ respBody, Except.ok "busy" = (Except.ok respBody : Except String String) →
          (infer "localhost:8000" "resnet" postBusy scenario 7).panicked
            = some (Panic.str ("500 Internal Server Error" ++ "\n" ++ respBody ++ "\n")))
      ∧ (∀ err, Except.ok "busy" = (Except.error err : Except String String) →
          (infer "localhost:8000" "resnet" postBusy scenario 7).panicked
            = some (Panic.error err)) :=
  ⟨rfl, infer_non200 "localhost:8000" "resnet" postBusy scenario 7 scenarioTensors
    "500 Internal Server Error" 500 (Except.ok "busy") rfl rfl (by decide)⟩

/-- C8. For every schema, network and instant, `infer` returns normally without
sending a record exactly when the POST failed with a transport error, the POST being
made with the synthesized body whenever synthesis returns; in every other case
`infer` either sends the one record and returns, or panics having sent none.  When
synthesis panics no POST is made. -/
theorem infer_dropped (authority model : String)
    (post : String → String → String → PostOutcome) (c : Config) (t : Time) :
    (((infer authority model post c t).panicked = none
          ∧ (infer authority model post c t).sent = [])
        ↔ ∃ body err, requestBody c = Except.ok body
            ∧ post (inferURL authority model) "application/json" body
                = PostOutcome.transportError err)
      ∧ (∀ tensors, synthesize c = Except.ok tensors →
          (((infer authority model post c t).panicked = none
              ∧ (infer authority model post c t).sent = [])
            ↔ ∃ err, post (inferURL authority model) "application/json"
                  (marshalInfer { Inputs := tensors })
                = PostOutcome.transportError err))
      ∧ (∀ body, requestBody c = Except.ok body →
          (infer authority model post c t).posted
            = [(inferURL authority model, "application/json", body)])
      ∧ ((¬ ∃ body err, requestBody c = Except.ok body
            ∧ post (inferURL authority model) "application/json" body
                = PostOutcome.transportError err) →
          ((infer authority model post c t).sent = [t]
              ∧ (infer authority model post c t).panicked = none)
            ∨ ((infer authority model post c t).sent = []
              ∧ ∃ p, (infer authority model post c t).panicked = some p))
      ∧ ((∃ p, requestBody c = Except.error p) →
          (infer authority model post c t).posted = []
            ∧ ∃ p, (infer authority model post c t).panicked = some p) := by
  unfold infer requestBody
  cases hs : synthesize c with
  | error p => simp
  | ok tensors =>
    simp only
    cases hp : post (inferURL authority model) "application/json"
        (marshalInfer { Inputs := tensors }) with
    | transportError err => simp [hp]
    | response status statusCode read =>
      cases read with
      | error err => simp [hp]
      | ok respBody =>
        by_cases hc : statusCode = 200
        · simp [hp, hc]
        · simp [hp, hc]

/-- On a network where every request fails with a transport error the scenario's
tick is dropped: the request is posted, the failure logged, nothing sent, no panic;
on a network answering 200 the tick is not dropped. -/
theorem infer_dropped_witness :
    infer "localhost:8000" "resnet" postDown scenario 7
        = { posted := [("http://localhost:8000/v2/models/resnet/infer", "application/json",
              "\x7b\"inputs\":[\x7b\"name\":\"INPUT0\",\"datatype\":\"FP32\",\"shape\":[1,3],\"data\":[0,0,0]\x7d]\x7d")],
            logged := ["Post"], sent := [], panicked := none }
      ∧ ((infer "localhost:8000" "resnet" postDown scenario 7).panicked = none
          ∧ (infer "localhost:8000" "resnet" postDown scenario 7).sent = [])
      ∧ ¬ ((infer "localhost:8000" "resnet" postOK scenario 7).panicked = none
          ∧ (infer "localhost:8000" "resnet" postOK scenario 7).sent = []) :=
  ⟨rfl,
    (infer_dropped "localhost:8000" "resnet" postDown scenario 7).2.1 scenarioTensors rfl
      |>.mpr ⟨"connection refused", rfl⟩,
    fun h =>
      absurd ((infer_dropped "localhost:8000" "resnet" postOK scenario 7).2.1
        scenarioTensors rfl |>.mp h) (by
          rintro ⟨err, herr⟩
          exact PostOutcome.noConfusion herr)⟩

/-! ## The claim on the target rate -/

theorem clamp_neg (mag : Nat) :
    (if -(2 ^ 63) ≤ -(mag : Int) ∧ -(mag : Int) < 2 ^ 63 then -(mag : Int) else -(2 ^ 63))
      ≤ 0 := by
  split <;> omega

theorem toDuration_neg (m : Nat) (e : Int) : toDuration (Float64.fin true m e) ≤ 0 :=
  clamp_neg (if 0 ≤ e then m * 2 ^ e.toNat else m / 2 ^ (-e).toNat)

theorem toDuration_inf (neg : Bool) : toDuration (Float64.inf neg) ≤ 0 := by
  unfold toDuration
  norm_num

theorem roundBinary64_cases (neg : Bool) (n d : Nat) (k : Int) :
    roundBinary64 neg n d k = Float64.inf neg
      ∨ ∃ m e, roundBinary64 neg n d k = Float64.fin neg m e := by
  unfold roundBinary64
  simp only
  split_ifs <;> first | exact Or.inl rfl | exact Or.inr ⟨_, _, rfl⟩

theorem roundBinary64_neg (n d : Nat) (k : Int) :
    toDuration (roundBinary64 true n d k) ≤ 0 := by
  rcases roundBinary64_cases true n d k with h | ⟨m, e, h⟩ <;> rw [h]
  · exact toDuration_inf true
  · exact toDuration_neg m e

/-- A rate with the sign bit set gives an interval that is not positive. -/
theorem interval_nonpos (rate : Float64) (h : rate.signBit = true) :
    toDuration (secondsOver rate) ≤ 0 := by
  cases rate with
  | nan => exact absurd h (by simp [Float64.signBit])
  | inf neg =>
    simp only [Float64.signBit] at h
    subst h
    exact toDuration_neg 0 0
  | fin neg m e =>
    simp only [Float64.signBit] at h
    subst h
    cases m with
    | zero => exact toDuration_inf true
    | succ m =>
      unfold secondsOver
      exact roundBinary64_neg _ _ _

/-- C9, as the claim states it, fails: for the rate `-1` the start of `main` reports
no error; `load` computes the interval of minus one second and ranges over the nil
channel. -/
theorem load_negative_rate :
    main (Except.ok (Float64.fin true 1 0)) (Except.ok scenario)
      = Except.ok { schema := scenario, interval := -1000000000, ticker := none } := by
  rfl

/-- C9, amended. The load driver computes its tick interval as one second over the
rate for every rate and reports no configuration error: the start of `main` hands
every parsed rate to `load`.  The driver ranges over `time.Tick` of the interval,
which is the nil channel when the interval is not positive, as it is for every rate
with the sign bit set; no dispatch is scheduled then. -/
theorem load_unvalidated (rate : Float64) (c : Config) :
    main (Except.ok rate) (Except.ok c) = Except.ok (load rate c)
      ∧ (load rate c).interval = toDuration (secondsOver rate)
      ∧ (load rate c).ticker = Tick (load rate c).interval
      ∧ ((load rate c).interval ≤ 0 →
          ∀ start n, (load rate c).dispatched start n = [])
      ∧ (rate.signBit = true →
          (load rate c).interval ≤ 0
            ∧ ∀ start n, (load rate c).dispatched start n = []) := by
  have hnil : (load rate c).interval ≤ 0 →
      ∀ start n, (load rate c).dispatched start n = [] := by
    intro hle start n
    unfold Driver.dispatched load Tick
    simp only
    unfold load at hle
    simp only at hle
    rw [if_pos hle]
  refine ⟨rfl, rfl, rfl, hnil, fun hs => ?_⟩
  have hle : (load rate c).interval ≤ 0 := interval_nonpos rate hs
  exact ⟨hle, hnil hle⟩

/-- The rate `-1` has the sign bit set: no dispatch is scheduled. -/
theorem load_unvalidated_witness :
    (Float64.fin true 1 0).signBit = true
      ∧ (load (Float64.fin true 1 0) scenario).interval ≤ 0
      ∧ ∀ start n, (load (Float64.fin true 1 0) scenario).dispatched start n = [] :=
  ⟨rfl, (load_unvalidated (Float64.fin true 1 0) scenario).2.2.2.2 rfl⟩

/-! ## The float model on familiar rates -/

/-- At 10 requests a second the interval is 100 milliseconds. -/
theorem load_ten_hertz :
    load (Float64.fin false 5 1) scenario
      = { schema := scenario, interval := 100000000, ticker := some 100000000 } := by
  rfl

/-- At 3 requests a second the quotient is rounded, then truncated. -/
theorem load_three_hertz :
    secondsOver (Float64.fin false 3 0) = Float64.fin false 5592405333333333 (-24)
      ∧ (load (Float64.fin false 3 0) scenario).interval = 333333333 := by
  exact ⟨rfl, rfl⟩

end TritonClient
